import Mathlib

/-!
# Terminal chat server: the hub loop and the two per-client pumps

A shallow embedding of `server/main.go`.

* `Server.Run` is a single goroutine that owns the `clients` map.  It is modelled as a
  labelled transition system `Run.step`: the hub is either waiting in its `select`
  (`Pc.select`), or inside a handler at the statement `s.broadcast <- msg`
  (`Pc.sending msg`), or it has panicked.  The three channels of `NewServer` are
  unbuffered, so every operation on them is a rendezvous with another goroutine and
  appears as one label (`Action`).  `Run` on its own is an open system: its send on
  `s.broadcast` completes when some goroutine receives (`Action.taken`).
  `Program.offers` records which of these operations the other goroutines of the
  program perform.
* A `*Client` pointer is modelled by a `Client` value; the state of its buffered
  channel `client.send` (capacity 256) lives in `Server.chans`.  Receives from that
  channel by `writeMessages` only take lines from the head of a buffer; they are not
  operations of the hub and do not appear in its runs.
* The two run-time panics of channels are modelled: a send on a closed channel and
  the close of a closed channel.
* The order in which `range` visits the keys of a map is not specified by Go; the
  order of the list `Server.clients` stands for it.  No statement below depends on it.
* Lines are Lean strings, that is, valid UTF-8.
* `readMessages` and `writeMessages` are modelled by the list of channel and
  connection operations they perform, in program order, on a given stream of read or
  write results.  The mutex of `Server` is taken by `Run` alone and `log.Printf`
  changes no state; both are left out.
-/

namespace ChatServer

/-! ## Data model -/

/-- The `Client` struct: one value per `*Client` pointer (the map key). -/
structure Client where
  id : Nat
  username : String
deriving DecidableEq, Repr

/-- The state of a `chan string`: the lines sent and not yet received, and whether
the channel has been closed. -/
structure Chan where
  buf : List String
  closed : Bool
deriving DecidableEq, Repr

/-- Capacity of `client.send`: `make(chan string, 256)` in `handleClient`. -/
def sendCap : Nat := 256

/-- The channel that `handleClient` creates for a new client. -/
def Chan.fresh : Chan := { buf := [], closed := false }

/-- A wall-clock reading, as returned by `time.Now()`. -/
structure Time where
  hour : Nat
  minute : Nat
  second : Nat
deriving DecidableEq, Repr

/-- Two decimal digits, zero padded. -/
def twoDigits (n : Nat) : String :=
  String.mk [Char.ofNat (48 + n / 10 % 10), Char.ofNat (48 + n % 10)]

/-- The call `t.Format("15:04:05")`. -/
def Time.Format (t : Time) : String :=
  twoDigits t.hour ++ ":" ++ twoDigits t.minute ++ ":" ++ twoDigits t.second

/-- The hub data: the key set of `clients map[*Client]bool` (a map holds each key
once; the list order stands for the iteration order of `range`) and the state of
every client's `send` channel. -/
structure Server where
  clients : List Client
  nodup : clients.Nodup
  chans : Client → Chan

/-- The result of `NewServer()`: an empty map. Every client later handed to the hub
was created by `handleClient` with a fresh channel. -/
def NewServer : Server :=
  { clients := [], nodup := List.nodup_nil, chans := fun _ => Chan.fresh }

/-- Assignment to the channel state of one client. -/
def Server.setChan (s : Server) (c : Client) (ch : Chan) : Server :=
  { s with chans := fun x => if x = c then ch else s.chans x }

/-- The statement `s.clients[client] = true`. -/
def Server.insert (s : Server) (c : Client) : Server :=
  { s with clients := s.clients.insert c, nodup := s.nodup.insert }

/-- The statement `delete(s.clients, client)`. -/
def Server.delete (s : Server) (c : Client) : Server :=
  { s with clients := s.clients.erase c, nodup := s.nodup.erase c }

/-- The builtin `close(ch)`: closing a closed channel panics (`none`). -/
def closeChan (ch : Chan) : Option Chan :=
  if ch.closed then none else some { ch with closed := true }

/-- Outcome of `select { case ch <- m: default: }`. -/
inductive SendResult where
  | sent (ch : Chan)
  | full
  | panic
deriving DecidableEq, Repr

/-- The non-blocking send `select { case client.send <- message: default: ... }`:
a send on a closed channel panics; otherwise the line is buffered when fewer than
`sendCap` lines are pending, and the `default` branch runs when the buffer is full. -/
def trySend (ch : Chan) (m : String) : SendResult :=
  if ch.closed then .panic
  else if ch.buf.length < sendCap then .sent { ch with buf := ch.buf ++ [m] }
  else .full

/-- The call `fmt.Sprintf("[%s] *** %s joined the chat ***", time.Now().Format("15:04:05"), username)`. -/
def joinMessage (now : Time) (username : String) : String :=
  "[" ++ now.Format ++ "] *** " ++ username ++ " joined the chat ***"

/-- The call `fmt.Sprintf("[%s] *** %s left the chat ***", time.Now().Format("15:04:05"), username)`. -/
def leaveMessage (now : Time) (username : String) : String :=
  "[" ++ now.Format ++ "] *** " ++ username ++ " left the chat ***"

/-- The call `fmt.Sprintf("[%s] %s: %s", timestamp, client.username, message)`. -/
def chatMessage (now : Time) (username : String) (message : String) : String :=
  "[" ++ now.Format ++ "] " ++ username ++ ": " ++ message

/-! ## The hub loop `Server.Run` -/

/-- Where the hub goroutine stands. -/
inductive Pc where
  | select
  | sending (msg : String)
  | panicked
deriving DecidableEq, Repr

/-- A hub configuration: its data and its control point. -/
structure Hub where
  srv : Server
  pc : Pc

/-- The hub right after `go server.Run()`. -/
def Hub.start : Hub := { srv := NewServer, pc := .select }

/-- The body of `case client := <-s.register` up to its last statement
`s.broadcast <- joinMessage`, a send on an unbuffered channel. -/
def Run.caseRegister (s : Server) (client : Client) (now : Time) : Hub :=
  { srv := s.insert client, pc := .sending (joinMessage now client.username) }

/-- The body of `case client := <-s.unregister`. -/
def Run.caseUnregister (s : Server) (client : Client) (now : Time) : Hub :=
  if client ∈ s.clients then
    match closeChan ((s.delete client).chans client) with
    | none => { srv := s.delete client, pc := .panicked }
    | some ch =>
      { srv := (s.delete client).setChan client ch,
        pc := .sending (leaveMessage now client.username) }
  else
    { srv := s, pc := .select }

/-- The loop `for client := range s.clients { select { ... } }` over the keys still to
be visited. -/
def Run.fanout (message : String) : List Client → Server → Hub
  | [], s => { srv := s, pc := .select }
  | client :: rest, s =>
    match trySend (s.chans client) message with
    | .sent ch => Run.fanout message rest (s.setChan client ch)
    | .full =>
      match closeChan ((s.delete client).chans client) with
      | none => { srv := s.delete client, pc := .panicked }
      | some ch => Run.fanout message rest ((s.delete client).setChan client ch)
    | .panic => { srv := s, pc := .panicked }

/-- The body of `case message := <-s.broadcast`. -/
def Run.caseBroadcast (s : Server) (message : String) : Hub :=
  Run.fanout message s.clients s

/-- The channel operations of the hub. `register`, `unregister` and `broadcast` are
the three receives of its `select`; `taken` is the completion of the hub's own send
`s.broadcast <- msg`, which needs another goroutine receiving from `s.broadcast`. -/
inductive Action where
  | register (client : Client) (now : Time)
  | unregister (client : Client) (now : Time)
  | broadcast (message : String)
  | taken
deriving DecidableEq, Repr

/-- One channel operation of `Server.Run`; `none` when the hub cannot take part in
it at its current control point. -/
def Run.step (h : Hub) : Action → Option Hub
  | .register client now =>
    match h.pc with
    | .select => some (Run.caseRegister h.srv client now)
    | _ => none
  | .unregister client now =>
    match h.pc with
    | .select => some (Run.caseUnregister h.srv client now)
    | _ => none
  | .broadcast message =>
    match h.pc with
    | .select => some (Run.caseBroadcast h.srv message)
    | _ => none
  | .taken =>
    match h.pc with
    | .sending _ => some { h with pc := .select }
    | _ => none

/-- A finite run of the hub. -/
def Run.exec : Hub → List Action → Option Hub
  | h, [] => some h
  | h, a :: rest =>
    match Run.step h a with
    | some h1 => Run.exec h1 rest
    | none => none

/-- Whether some goroutine of the program other than `Run` performs the matching
channel operation: `handleClient` sends on `s.register`, `readMessages` sends on
`s.unregister` and `s.broadcast`, and the only receive from `s.broadcast` in the
program is the one in `Run` itself. -/
def Program.offers : Action → Bool
  | .register _ _ => true
  | .unregister _ _ => true
  | .broadcast _ => true
  | .taken => false

/-! ## The inbound pump `readMessages` -/

/-- Go's `unicode.IsSpace`: the Latin-1 spaces and the other code points with the
Unicode `White_Space` property. -/
def isSpace (c : Char) : Bool :=
  let n := c.toNat
  (9 ≤ n && n ≤ 13) || n == 32 || n == 0x85 || n == 0xA0 || n == 0x1680 ||
  (0x2000 ≤ n && n ≤ 0x200A) || n == 0x2028 || n == 0x2029 || n == 0x202F ||
  n == 0x205F || n == 0x3000

/-- Go's `strings.TrimSpace`: leading and trailing white space removed. -/
def TrimSpace (s : String) : String :=
  String.mk ((s.data.dropWhile isSpace).reverse.dropWhile isSpace).reverse

/-- Result of `reader.ReadString(10)`: a line (delimiter included) or an error. -/
inductive ReadResult where
  | line (raw : String)
  | err
deriving DecidableEq, Repr

/-- The channel and connection operations a pump performs. -/
inductive PumpOp where
  | publish (message : String)
  | unregister (client : Client)
  | write (data : String)
  | connClose (client : Client)
deriving DecidableEq, Repr

/-- How one iteration of a pump loop ends: `continue` (possibly after one send on
`s.broadcast`) or `break`. -/
inductive Flow where
  | next (sent : Option String)
  | stop
deriving DecidableEq, Repr

/-- One iteration of the `for` loop of `readMessages`; `now` is the clock reading
used when a message is formatted. -/
def readMessages.body (client : Client) (r : ReadResult) (now : Time) : Flow :=
  match r with
  | .err => .stop
  | .line raw =>
    let message := TrimSpace raw
    if message = "" then .next none
    else if message = "/exit" then .stop
    else .next (some (chatMessage now client.username message))

/-- The `for` loop of `readMessages` on a stream of read results: the sends it
performs and whether the loop has been left (`false`: still waiting in
`ReadString`). -/
def readMessages.loop (client : Client) : List (ReadResult × Time) → List PumpOp × Bool
  | [] => ([], false)
  | (r, now) :: rest =>
    match readMessages.body client r now with
    | .stop => ([], true)
    | .next none => readMessages.loop client rest
    | .next (some m) =>
      ((PumpOp.publish m) :: (readMessages.loop client rest).1,
        (readMessages.loop client rest).2)

/-- The function `readMessages`: the loop, then the deferred
`s.unregister <- client; client.conn.Close()` once the loop is left. The Boolean
tells whether the function has returned. -/
def readMessages (client : Client) (reads : List (ReadResult × Time)) : List PumpOp × Bool :=
  if (readMessages.loop client reads).2 then
    ((readMessages.loop client reads).1 ++ [PumpOp.unregister client, PumpOp.connClose client], true)
  else
    ((readMessages.loop client reads).1, false)

/-! ## The outbound pump `writeMessages` -/

/-- The loop `for message := range client.send` on the entries received from the
mailbox, each with whether its `conn.Write` succeeds; `closed` tells whether the
mailbox is closed once these entries are drained (the loop then ends; otherwise the
pump keeps waiting for the next entry). -/
def writeMessages.loop : List (String × Bool) → Bool → List PumpOp × Bool
  | [], closed => ([], closed)
  | (m, ok) :: rest, closed =>
    if ok then
      ((PumpOp.write (m ++ "\n")) :: (writeMessages.loop rest closed).1,
        (writeMessages.loop rest closed).2)
    else
      ([PumpOp.write (m ++ "\n")], true)

/-- The function `writeMessages`: the loop, then the deferred `client.conn.Close()`.
The Boolean tells whether the function has returned. -/
def writeMessages (client : Client) (entries : List (String × Bool)) (closed : Bool) :
    List PumpOp × Bool :=
  if (writeMessages.loop entries closed).2 then
    ((writeMessages.loop entries closed).1 ++ [PumpOp.connClose client], true)
  else
    ((writeMessages.loop entries closed).1, false)

/-! ## Vocabulary of the statements -/

/-- The action is a receive from `s.broadcast`. -/
def Action.isBroadcast : Action → Bool
  | .broadcast _ => true
  | _ => false

/-- The action is a Join of `c`. -/
def Action.isRegisterOf (c : Client) : Action → Bool
  | .register client _ => decide (client = c)
  | _ => false

/-- The action is a Leave of `c`. -/
def Action.isUnregisterOf (c : Client) : Action → Bool
  | .unregister client _ => decide (client = c)
  | _ => false

/-- Some Join of `c` in the run is followed by no Leave of `c`. -/
def joinedNotLeft (c : Client) : List Action → Bool
  | [] => false
  | a :: rest => (a.isRegisterOf c && rest.all (fun b => !b.isUnregisterOf c)) ||
      joinedNotLeft c rest

/-- The lines received from `s.broadcast` during a run, in arrival order. -/
def published : List Action → List String
  | [] => []
  | .broadcast m :: rest => m :: published rest
  | _ :: rest => published rest

/-- The clients received from `s.register` during a run, in arrival order. -/
def registered : List Action → List Client
  | [] => []
  | .register c _ :: rest => c :: registered rest
  | _ :: rest => registered rest

/-- The client `c` is in the map in every configuration of the run. -/
def Run.staysMember (c : Client) : Hub → List Action → Bool
  | h, [] => decide (c ∈ h.srv.clients)
  | h, a :: rest =>
    decide (c ∈ h.srv.clients) &&
      match Run.step h a with
      | some h1 => Run.staysMember c h1 rest
      | none => true

/-! ## Sample data -/

/-- A first client. -/
def alice : Client := { id := 1, username := "alice" }

/-- A second client. -/
def bob : Client := { id := 2, username := "bob" }

/-- A clock reading. -/
def nine : Time := { hour := 9, minute := 5, second := 30 }

/-- A mailbox holding 256 pending lines. -/
def fullChan : Chan := { buf := List.replicate 256 "x", closed := false }

/-- Both clients are members with empty mailboxes. -/
def pair : Server := (NewServer.insert alice).insert bob

/-- Both clients are members; the mailbox of `alice` is at capacity. -/
def crowded : Server := pair.setChan alice fullChan

/-- A run: both clients join, then `alice` leaves. -/
def sampleRun : List Action :=
  [Action.register alice nine, Action.taken, Action.register bob nine, Action.taken,
    Action.unregister alice nine]

/-- The configuration at the end of `sampleRun`. -/
def sampleEnd : Hub :=
  Run.caseUnregister (Run.caseRegister (Run.caseRegister NewServer alice nine).srv bob nine).srv
    alice nine

/-! ## Elementary facts about the map and the channels -/

theorem Server.mem_insert (s : Server) (c x : Client) :
    x ∈ (s.insert c).clients ↔ x = c ∨ x ∈ s.clients := by
  simp [Server.insert, List.mem_insert_iff]

theorem Server.mem_delete (s : Server) (c x : Client) :
    x ∈ (s.delete c).clients ↔ x ≠ c ∧ x ∈ s.clients := by
  simp [Server.delete, s.nodup.mem_erase_iff]

theorem Server.chans_setChan (s : Server) (c x : Client) (ch : Chan) :
    (s.setChan c ch).chans x = if x = c then ch else s.chans x := rfl

theorem Server.clients_setChan (s : Server) (c : Client) (ch : Chan) :
    (s.setChan c ch).clients = s.clients := rfl

theorem Server.chans_delete (s : Server) (c : Client) :
    (s.delete c).chans = s.chans := rfl

theorem Server.chans_insert (s : Server) (c : Client) :
    (s.insert c).chans = s.chans := rfl

theorem trySend_open (ch : Chan) (m : String) (h : ch.closed = false) :
    trySend ch m = if ch.buf.length < sendCap then
      SendResult.sent { buf := ch.buf ++ [m], closed := false } else SendResult.full := by
  cases ch
  simp_all [trySend]

theorem closeChan_open (ch : Chan) (h : ch.closed = false) :
    closeChan ch = some { buf := ch.buf, closed := true } := by
  simp [closeChan, h]

/-- The loop of the broadcast case, when every key still to be visited has an open
channel: it ends at the `select`, every visited client below capacity gets the line
appended, every visited client at capacity is deleted and closed, and nothing else
changes. -/
theorem Run.fanout_open (m : String) (l : List Client) :
    ∀ s : Server, l.Nodup → (∀ c ∈ l, (s.chans c).closed = false) →
      (Run.fanout m l s).pc = Pc.select ∧
      ∀ c, ((Run.fanout m l s).srv.chans c =
              if c ∈ l then
                (if (s.chans c).buf.length < sendCap
                  then { buf := (s.chans c).buf ++ [m], closed := false }
                  else { buf := (s.chans c).buf, closed := true })
              else s.chans c) ∧
           (c ∈ (Run.fanout m l s).srv.clients ↔
              c ∈ s.clients ∧ ¬ (c ∈ l ∧ ¬ (s.chans c).buf.length < sendCap)) := by
  induction l with
  | nil =>
    intro s _ _
    simp [Run.fanout]
  | cons a rest ih =>
    intro s hnd hopen
    have ha : (s.chans a).closed = false := hopen a (List.mem_cons_self _ _)
    have hnotin : a ∉ rest := (List.nodup_cons.mp hnd).1
    have hrest : rest.Nodup := (List.nodup_cons.mp hnd).2
    rw [Run.fanout, trySend_open _ _ ha]
    by_cases hlen : (s.chans a).buf.length < sendCap
    · simp only [hlen, if_true]
      have hopen1 : ∀ c ∈ rest,
          ((s.setChan a { buf := (s.chans a).buf ++ [m], closed := false }).chans c).closed
            = false := by
        intro c hc
        have hca : c ≠ a := fun e => hnotin (e ▸ hc)
        simp [Server.chans_setChan, hca, hopen c (List.mem_cons_of_mem _ hc)]
      obtain ⟨hpc, hall⟩ := ih _ hrest hopen1
      refine ⟨hpc, fun c => ?_⟩
      obtain ⟨h1, h2⟩ := hall c
      by_cases hca : c = a
      · subst hca
        simp [h1, h2, hnotin, Server.chans_setChan, Server.clients_setChan, hlen]
      · simp [h1, h2, hca, Server.chans_setChan, Server.clients_setChan]
    · simp only [hlen, if_false]
      have hcl : closeChan ((s.delete a).chans a) = some { buf := (s.chans a).buf, closed := true } := by
        rw [Server.chans_delete]; exact closeChan_open _ ha
      simp only [hcl]
      have hopen1 : ∀ c ∈ rest,
          (((s.delete a).setChan a { buf := (s.chans a).buf, closed := true }).chans c).closed
            = false := by
        intro c hc
        have hca : c ≠ a := fun e => hnotin (e ▸ hc)
        simp [Server.chans_setChan, Server.chans_delete, hca, hopen c (List.mem_cons_of_mem _ hc)]
      obtain ⟨hpc, hall⟩ := ih _ hrest hopen1
      refine ⟨hpc, fun c => ?_⟩
      obtain ⟨h1, h2⟩ := hall c
      by_cases hca : c = a
      · subst hca
        simp [h1, h2, hnotin, Server.chans_setChan, Server.clients_setChan, hlen,
          Server.mem_delete]
      · simp [h1, h2, hca, Server.chans_setChan, Server.clients_setChan, Server.chans_delete,
          Server.mem_delete]

/-- The loop of the broadcast case ends at the `select` or in a panic. -/
theorem Run.fanout_pc (m : String) (l : List Client) :
    ∀ s : Server, (Run.fanout m l s).pc = Pc.select ∨ (Run.fanout m l s).pc = Pc.panicked := by
  induction l with
  | nil => intro s; simp [Run.fanout]
  | cons a rest ih =>
    intro s
    rw [Run.fanout]
    split
    · exact ih _
    · split
      · simp
      · exact ih _
    · simp

/-- The loop of the broadcast case never changes a closed channel. -/
theorem Run.fanout_closed_frozen (m : String) (l : List Client) (c : Client) :
    ∀ s : Server, (s.chans c).closed = true → (Run.fanout m l s).srv.chans c = s.chans c := by
  induction l with
  | nil => intro s _; simp [Run.fanout]
  | cons a rest ih =>
    intro s hc
    rw [Run.fanout]
    by_cases hca : c = a
    · subst hca
      simp [trySend, hc]
    · split
      · rw [ih _ (by simp [Server.chans_setChan, hca, hc])]
        simp [Server.chans_setChan, hca]
      · split
        · simp [Server.chans_delete]
        · rw [ih _ (by simp [Server.chans_setChan, Server.chans_delete, hca, hc])]
          simp [Server.chans_setChan, Server.chans_delete, hca]
      · rfl

/-- The loop of the broadcast case adds no key to the map. -/
theorem Run.fanout_clients_subset (m : String) (l : List Client) (c : Client) :
    ∀ s : Server, c ∈ (Run.fanout m l s).srv.clients → c ∈ s.clients := by
  induction l with
  | nil => intro s h; simpa [Run.fanout] using h
  | cons a rest ih =>
    intro s h
    rw [Run.fanout] at h
    split at h
    · have h2 := ih _ h
      rw [Server.clients_setChan] at h2
      exact h2
    · split at h
      · exact ((Server.mem_delete s a c).mp h).2
      · have h2 := ih _ h
        rw [Server.clients_setChan] at h2
        exact ((Server.mem_delete s a c).mp h2).2
    · exact h

/-- When the loop of the broadcast case ends without a panic, every key it visited
had an open channel. -/
theorem Run.fanout_select_open (m : String) (l : List Client) :
    ∀ s : Server, l.Nodup → (Run.fanout m l s).pc = Pc.select →
      ∀ c ∈ l, (s.chans c).closed = false := by
  induction l with
  | nil => intro s _ _ c hc; simp at hc
  | cons a rest ih =>
    intro s hnd hpc c hc
    have hnotin : a ∉ rest := (List.nodup_cons.mp hnd).1
    have hrest : rest.Nodup := (List.nodup_cons.mp hnd).2
    have ha : (s.chans a).closed = false := by
      by_contra hcl
      have hcl1 : (s.chans a).closed = true := by simpa using hcl
      rw [Run.fanout] at hpc
      simp [trySend, hcl1] at hpc
    rcases List.mem_cons.mp hc with rfl | hcr
    · exact ha
    · have hca : c ≠ a := fun e => hnotin (e ▸ hcr)
      rw [Run.fanout, trySend_open _ _ ha] at hpc
      by_cases hlen : (s.chans a).buf.length < sendCap
      · simp only [hlen, if_true] at hpc
        have := ih _ hrest hpc c hcr
        simpa [Server.chans_setChan, hca] using this
      · simp only [hlen, if_false] at hpc
        have hcl : closeChan ((s.delete a).chans a) =
            some { buf := (s.chans a).buf, closed := true } := by
          rw [Server.chans_delete]; exact closeChan_open _ ha
        simp only [hcl] at hpc
        have := ih _ hrest hpc c hcr
        simpa [Server.chans_setChan, Server.chans_delete, hca] using this

/-- The cases of one hub step. -/
theorem Run.step_cases {h h1 : Hub} {a : Action} (hs : Run.step h a = some h1) :
    (h.pc = Pc.select ∧
      ((∃ c now, a = Action.register c now ∧ h1 = Run.caseRegister h.srv c now) ∨
       (∃ c now, a = Action.unregister c now ∧ h1 = Run.caseUnregister h.srv c now) ∨
       (∃ m, a = Action.broadcast m ∧ h1 = Run.caseBroadcast h.srv m))) ∨
    (∃ msg, h.pc = Pc.sending msg ∧ a = Action.taken ∧ h1 = { h with pc := Pc.select }) := by
  cases a with
  | register c now =>
    cases hpc : h.pc <;> simp [Run.step, hpc] at hs
    left; exact ⟨rfl, Or.inl ⟨c, now, rfl, hs.symm⟩⟩
  | unregister c now =>
    cases hpc : h.pc <;> simp [Run.step, hpc] at hs
    left; exact ⟨rfl, Or.inr (Or.inl ⟨c, now, rfl, hs.symm⟩)⟩
  | broadcast m =>
    cases hpc : h.pc <;> simp [Run.step, hpc] at hs
    left; exact ⟨rfl, Or.inr (Or.inr ⟨m, rfl, hs.symm⟩)⟩
  | taken =>
    cases hpc : h.pc <;> simp [Run.step, hpc] at hs
    right; exact ⟨_, rfl, rfl, hs.symm⟩

/-- A panicked hub takes no further step. -/
theorem Run.step_panicked (h : Hub) (a : Action) (hp : h.pc = Pc.panicked) :
    Run.step h a = none := by
  cases a <;> simp [Run.step, hp]

/-- The unregister case: the key is absent afterwards whatever branch was taken, and
the other keys are untouched. -/
theorem Run.caseUnregister_mem (s : Server) (c x : Client) (now : Time) :
    x ∈ (Run.caseUnregister s c now).srv.clients ↔ x ≠ c ∧ x ∈ s.clients := by
  unfold Run.caseUnregister
  by_cases hc : c ∈ s.clients
  · simp only [hc, if_true]
    split
    · exact Server.mem_delete s c x
    · simpa [Server.clients_setChan] using Server.mem_delete s c x
  · simp only [hc, if_false]
    constructor
    · intro hx
      exact ⟨fun e => hc (e ▸ hx), hx⟩
    · exact fun hx => hx.2

/-- The unregister case never changes a closed channel. -/
theorem Run.caseUnregister_closed_frozen (s : Server) (c x : Client) (now : Time)
    (hx : (s.chans x).closed = true) :
    (Run.caseUnregister s c now).srv.chans x = s.chans x := by
  unfold Run.caseUnregister
  by_cases hc : c ∈ s.clients
  · simp only [hc, if_true]
    by_cases hxc : x = c
    · subst hxc
      simp [closeChan, Server.chans_delete, hx]
    · split
      · rfl
      · simp [Server.chans_setChan, Server.chans_delete, hxc]
  · simp [hc]

/-- One hub step never changes a closed channel. -/
theorem Run.step_closed_frozen {h h1 : Hub} {a : Action} (hs : Run.step h a = some h1)
    (x : Client) (hx : (h.srv.chans x).closed = true) :
    h1.srv.chans x = h.srv.chans x := by
  rcases Run.step_cases hs with ⟨_, hcase⟩ | ⟨msg, _, _, rfl⟩
  · rcases hcase with ⟨c, now, _, rfl⟩ | ⟨c, now, _, rfl⟩ | ⟨m, _, rfl⟩
    · rfl
    · exact Run.caseUnregister_closed_frozen _ _ _ _ hx
    · exact Run.fanout_closed_frozen _ _ _ _ hx
  · rfl

/-- A run of the hub never changes a closed channel. -/
theorem Run.exec_closed_frozen (tr : List Action) :
    ∀ (h hf : Hub), Run.exec h tr = some hf → ∀ x, (h.srv.chans x).closed = true →
      hf.srv.chans x = h.srv.chans x := by
  induction tr with
  | nil =>
    intro h hf he x _
    simp [Run.exec] at he
    rw [← he]
  | cons a rest ih =>
    intro h hf he x hx
    rw [Run.exec] at he
    cases hs : Run.step h a with
    | none => simp [hs] at he
    | some h1 =>
      simp only [hs] at he
      have h1x := Run.step_closed_frozen hs x hx
      rw [ih h1 hf he x (by rw [h1x]; exact hx), h1x]

/-- The broadcast case on a map whose members all have open channels. -/
theorem Run.caseBroadcast_open (s : Server) (m : String)
    (hopen : ∀ c ∈ s.clients, (s.chans c).closed = false) (c : Client) :
    (Run.caseBroadcast s m).pc = Pc.select ∧
    ((Run.caseBroadcast s m).srv.chans c =
        if c ∈ s.clients then
          (if (s.chans c).buf.length < sendCap
            then { buf := (s.chans c).buf ++ [m], closed := false }
            else { buf := (s.chans c).buf, closed := true })
        else s.chans c) ∧
    (c ∈ (Run.caseBroadcast s m).srv.clients ↔
        c ∈ s.clients ∧ (s.chans c).buf.length < sendCap) := by
  obtain ⟨hpc, hall⟩ := Run.fanout_open m s.clients s s.nodup hopen
  refine ⟨hpc, (hall c).1, ?_⟩
  rw [Run.caseBroadcast, (hall c).2]
  constructor
  · rintro ⟨h1, h2⟩
    refine ⟨h1, ?_⟩
    by_contra hlen
    exact h2 ⟨h1, hlen⟩
  · rintro ⟨h1, h2⟩
    exact ⟨h1, fun h3 => h3.2 h2⟩

/-- The unregister case only touches the channel of its own client. -/
theorem Run.caseUnregister_chans_ne (s : Server) (c x : Client) (now : Time) (hx : x ≠ c) :
    (Run.caseUnregister s c now).srv.chans x = s.chans x := by
  unfold Run.caseUnregister
  by_cases hc : c ∈ s.clients
  · simp only [hc, if_true]
    split
    · rfl
    · simp [Server.chans_setChan, Server.chans_delete, hx]
  · simp [hc]

/-- A run that ends without a panic started without one. -/
theorem Run.exec_not_panicked {h hf : Hub} {tr : List Action}
    (he : Run.exec h tr = some hf) (hp : hf.pc ≠ Pc.panicked) : h.pc ≠ Pc.panicked := by
  cases tr with
  | nil =>
    simp [Run.exec] at he
    rw [he]; exact hp
  | cons a rest =>
    intro hpan
    rw [Run.exec, Run.step_panicked h a hpan] at he
    simp at he

/-- A client that stays a member during a run is a member at its start. -/
theorem Run.staysMember_head {c : Client} {h : Hub} {tr : List Action}
    (hm : Run.staysMember c h tr = true) : c ∈ h.srv.clients := by
  cases tr with
  | nil => simpa [Run.staysMember] using hm
  | cons a rest =>
    simp [Run.staysMember] at hm
    exact hm.1

/-- One step that ends without a panic and keeps `x` in the map appends to the
mailbox of `x` exactly the line received from `s.broadcast`, if any. -/
theorem Run.step_buf {h h1 : Hub} {a : Action} (hs : Run.step h a = some h1)
    (hp : h1.pc ≠ Pc.panicked) (x : Client) (hx : x ∈ h.srv.clients)
    (hx1 : x ∈ h1.srv.clients) :
    (h1.srv.chans x).buf = (h.srv.chans x).buf ++ published [a] := by
  rcases Run.step_cases hs with ⟨_, hcase⟩ | ⟨msg, _, rfl, rfl⟩
  · rcases hcase with ⟨c, now, rfl, rfl⟩ | ⟨c, now, rfl, rfl⟩ | ⟨m, rfl, rfl⟩
    · simp [published, Run.caseRegister, Server.chans_insert]
    · have hxc : x ≠ c := ((Run.caseUnregister_mem _ _ _ _).mp hx1).1
      simp [published, Run.caseUnregister_chans_ne _ _ _ _ hxc]
    · have hsel : (Run.caseBroadcast h.srv m).pc = Pc.select := by
        rcases Run.fanout_pc m h.srv.clients h.srv with h2 | h2
        · exact h2
        · exact absurd h2 hp
      have hopen := Run.fanout_select_open m h.srv.clients h.srv h.srv.nodup hsel
      obtain ⟨_, hch, hmem⟩ := Run.caseBroadcast_open h.srv m hopen x
      have hlen := (hmem.mp hx1).2
      simp [hch, hx, hlen, published]
  · simp [published]

/-- Along a run that ends without a panic, a client that stays in the map has
exactly the published lines appended to its mailbox, in arrival order. -/
theorem Run.exec_buf (tr : List Action) :
    ∀ (h hf : Hub) (x : Client), Run.exec h tr = some hf → hf.pc ≠ Pc.panicked →
      Run.staysMember x h tr = true →
      (hf.srv.chans x).buf = (h.srv.chans x).buf ++ published tr := by
  induction tr with
  | nil =>
    intro h hf x he _ _
    simp [Run.exec] at he
    simp [← he, published]
  | cons a rest ih =>
    intro h hf x he hp hm
    rw [Run.exec] at he
    cases hs : Run.step h a with
    | none => simp [hs] at he
    | some h1 =>
      simp only [hs] at he
      simp only [Run.staysMember, hs, Bool.and_eq_true, decide_eq_true_eq] at hm
      have h1p := Run.exec_not_panicked he hp
      have hx1 := Run.staysMember_head hm.2
      rw [ih h1 hf x he hp hm.2, Run.step_buf hs h1p x hm.1 hx1, List.append_assoc]
      congr 1
      cases a <;> simp [published]

/-! ## Fan-out -/

/-- C2: in a hub state whose members all have an open mailbox below capacity, the
broadcast case ends at the `select`, appends the published line once at the tail of
every member's mailbox, touches no other mailbox and keeps the members set; and
along any run that ends without a panic, two clients that stay members throughout
both get exactly the published lines appended, in hub-arrival order. -/
theorem broadcast_appends_to_every_member :
    (∀ (s : Server) (m : String),
      (∀ c ∈ s.clients, (s.chans c).closed = false ∧ (s.chans c).buf.length < sendCap) →
        (Run.caseBroadcast s m).pc = Pc.select ∧
        (∀ c, c ∈ (Run.caseBroadcast s m).srv.clients ↔ c ∈ s.clients) ∧
        (∀ c ∈ s.clients, (Run.caseBroadcast s m).srv.chans c =
            { buf := (s.chans c).buf ++ [m], closed := false }) ∧
        (∀ c, c ∉ s.clients → (Run.caseBroadcast s m).srv.chans c = s.chans c)) ∧
    (∀ (h hf : Hub) (tr : List Action) (a b : Client),
      Run.exec h tr = some hf → hf.pc ≠ Pc.panicked →
      Run.staysMember a h tr = true → Run.staysMember b h tr = true →
        (hf.srv.chans a).buf = (h.srv.chans a).buf ++ published tr ∧
        (hf.srv.chans b).buf = (h.srv.chans b).buf ++ published tr) := by
  constructor
  · intro s m hall
    have hopen : ∀ c ∈ s.clients, (s.chans c).closed = false := fun c hc => (hall c hc).1
    refine ⟨(Run.caseBroadcast_open s m hopen ⟨0, ""⟩).1, ?_, ?_, ?_⟩
    · intro c
      rw [(Run.caseBroadcast_open s m hopen c).2.2]
      exact ⟨fun hc => hc.1, fun hc => ⟨hc, (hall c hc).2⟩⟩
    · intro c hc
      rw [(Run.caseBroadcast_open s m hopen c).2.1]
      simp [hc, (hall c hc).2]
    · intro c hc
      rw [(Run.caseBroadcast_open s m hopen c).2.1]
      simp [hc]
  · intro h hf tr a b he hp ha hb
    exact ⟨Run.exec_buf tr h hf a he hp ha, Run.exec_buf tr h hf b he hp hb⟩

/-- C3: in a hub state whose members all have an open mailbox, the broadcast case
deletes every member whose mailbox is at capacity and closes its mailbox without
adding the line, and no later run of the hub changes that mailbox; every member
below capacity gets the line appended once and stays a member. -/
theorem broadcast_drops_full_member (s : Server) (m : String)
    (hopen : ∀ c ∈ s.clients, (s.chans c).closed = false) :
    (Run.caseBroadcast s m).pc = Pc.select ∧
    (∀ c ∈ s.clients, sendCap ≤ (s.chans c).buf.length →
        c ∉ (Run.caseBroadcast s m).srv.clients ∧
        (Run.caseBroadcast s m).srv.chans c = { buf := (s.chans c).buf, closed := true } ∧
        ∀ (tr : List Action) (hf : Hub), Run.exec (Run.caseBroadcast s m) tr = some hf →
          hf.srv.chans c = { buf := (s.chans c).buf, closed := true }) ∧
    (∀ c ∈ s.clients, (s.chans c).buf.length < sendCap →
        c ∈ (Run.caseBroadcast s m).srv.clients ∧
        (Run.caseBroadcast s m).srv.chans c =
          { buf := (s.chans c).buf ++ [m], closed := false }) := by
  refine ⟨(Run.caseBroadcast_open s m hopen ⟨0, ""⟩).1, ?_, ?_⟩
  · intro c hc hfull
    have hlen : ¬ (s.chans c).buf.length < sendCap := Nat.not_lt.mpr hfull
    obtain ⟨_, hch, hmem⟩ := Run.caseBroadcast_open s m hopen c
    have hch1 : (Run.caseBroadcast s m).srv.chans c =
        { buf := (s.chans c).buf, closed := true } := by
      rw [hch]; simp [hc, hlen]
    refine ⟨fun hin => hlen (hmem.mp hin).2, hch1, ?_⟩
    intro tr hf he
    rw [Run.exec_closed_frozen tr _ hf he c (by rw [hch1]), hch1]
  · intro c hc hlen
    obtain ⟨_, hch, hmem⟩ := Run.caseBroadcast_open s m hopen c
    refine ⟨hmem.mpr ⟨hc, hlen⟩, ?_⟩
    rw [hch]; simp [hc, hlen]

/-- C5: the unregister case for a client that is not in the map returns to the
`select` with the hub data unchanged and sends no notice; hence after one Leave of
a client has been handled, handling a second Leave of it changes nothing and sends
no notice. -/
theorem unregister_absent_changes_nothing (s : Server) (c : Client) (now : Time) :
    (c ∉ s.clients → Run.caseUnregister s c now = { srv := s, pc := Pc.select }) ∧
    (∀ now2 : Time, Run.caseUnregister (Run.caseUnregister s c now).srv c now2 =
        { srv := (Run.caseUnregister s c now).srv, pc := Pc.select }) := by
  have key : ∀ (s1 : Server) (t : Time), c ∉ s1.clients →
      Run.caseUnregister s1 c t = { srv := s1, pc := Pc.select } := by
    intro s1 t h
    simp [Run.caseUnregister, h]
  refine ⟨key s now, fun now2 => key _ now2 ?_⟩
  intro hin
  exact ((Run.caseUnregister_mem s c c now).mp hin).1 rfl

/-- Membership after one step that is not a receive from `s.broadcast`. -/
theorem Run.step_mem_iff {h h1 : Hub} {a : Action} (hs : Run.step h a = some h1)
    (hb : a.isBroadcast = false) (c : Client) :
    c ∈ h1.srv.clients ↔
      a.isRegisterOf c = true ∨ (c ∈ h.srv.clients ∧ a.isUnregisterOf c = false) := by
  rcases Run.step_cases hs with ⟨_, hcase⟩ | ⟨msg, _, rfl, rfl⟩
  · rcases hcase with ⟨x, now, rfl, rfl⟩ | ⟨x, now, rfl, rfl⟩ | ⟨m, rfl, rfl⟩
    · simp only [Run.caseRegister, Server.mem_insert, Action.isRegisterOf,
        Action.isUnregisterOf, decide_eq_true_eq, and_true]
      constructor
      · rintro (h1 | h1)
        · exact Or.inl h1.symm
        · exact Or.inr h1
      · rintro (h1 | h1)
        · exact Or.inl h1.symm
        · exact Or.inr h1
    · rw [Run.caseUnregister_mem]
      simp only [Action.isRegisterOf, Action.isUnregisterOf, decide_eq_false_iff_not,
        Bool.false_eq_true, false_or]
      constructor
      · rintro ⟨h1, h2⟩
        exact ⟨h2, fun e => h1 e.symm⟩
      · rintro ⟨h1, h2⟩
        exact ⟨fun e => h2 e.symm, h1⟩
    · simp [Action.isBroadcast] at hb
  · simp [Action.isRegisterOf, Action.isUnregisterOf]

/-- Membership after a run without receives from `s.broadcast`. -/
theorem Run.exec_mem_iff (c : Client) (tr : List Action) :
    ∀ (h hf : Hub), Run.exec h tr = some hf → (∀ a ∈ tr, a.isBroadcast = false) →
      (c ∈ hf.srv.clients ↔
        joinedNotLeft c tr = true ∨
          (c ∈ h.srv.clients ∧ tr.all (fun b => !b.isUnregisterOf c) = true)) := by
  induction tr with
  | nil =>
    intro h hf he _
    simp [Run.exec] at he
    simp [← he, joinedNotLeft]
  | cons a rest ih =>
    intro h hf he hb
    rw [Run.exec] at he
    cases hs : Run.step h a with
    | none => simp [hs] at he
    | some h1 =>
      simp only [hs] at he
      rw [ih h1 hf he (fun x hx => hb x (List.mem_cons_of_mem _ hx)),
        Run.step_mem_iff hs (hb a (List.mem_cons_self _ _)) c]
      simp only [joinedNotLeft, List.all_cons, Bool.or_eq_true, Bool.and_eq_true,
        Bool.not_eq_true']
      tauto

/-- The Boolean scan `joinedNotLeft` says: the run contains a Join of `c` after
which it contains no Leave of `c`. -/
theorem joinedNotLeft_iff (c : Client) (tr : List Action) :
    joinedNotLeft c tr = true ↔
      ∃ pre now post, tr = pre ++ Action.register c now :: post ∧
        ∀ now2, Action.unregister c now2 ∉ post := by
  have hall : ∀ l : List Action, l.all (fun b => !b.isUnregisterOf c) = true ↔
      ∀ now2, Action.unregister c now2 ∉ l := by
    intro l
    rw [List.all_eq_true]
    constructor
    · intro h now2 hin
      have := h _ hin
      simp [Action.isUnregisterOf] at this
    · intro h x hx
      cases x with
      | unregister x t =>
        by_cases hxc : x = c
        · subst hxc; exact absurd hx (h t)
        · simp [Action.isUnregisterOf, hxc]
      | register x t => simp [Action.isUnregisterOf]
      | broadcast m => simp [Action.isUnregisterOf]
      | taken => simp [Action.isUnregisterOf]
  induction tr with
  | nil => simp [joinedNotLeft]
  | cons a rest ih =>
    simp only [joinedNotLeft, Bool.or_eq_true, Bool.and_eq_true, ih, hall]
    constructor
    · rintro (⟨h1, h2⟩ | ⟨pre, now, post, rfl, h2⟩)
      · cases a with
        | register x t =>
          simp [Action.isRegisterOf] at h1
          subst h1
          exact ⟨[], t, rest, rfl, h2⟩
        | unregister x t => simp [Action.isRegisterOf] at h1
        | broadcast m => simp [Action.isRegisterOf] at h1
        | taken => simp [Action.isRegisterOf] at h1
      · exact ⟨a :: pre, now, post, rfl, h2⟩
    · rintro ⟨pre, now, post, heq, h2⟩
      cases pre with
      | nil =>
        simp only [List.nil_append, List.cons.injEq] at heq
        obtain ⟨rfl, rfl⟩ := heq
        left
        exact ⟨by simp [Action.isRegisterOf], h2⟩
      | cons p pre1 =>
        simp only [List.cons_append, List.cons.injEq] at heq
        obtain ⟨rfl, rfl⟩ := heq
        right
        exact ⟨pre1, now, post, rfl, h2⟩

/-! ## Membership -/

/-- C1: after any run of Join and Leave events from the empty map (with the hub's
own notice sends completing in between), a client is in the map exactly when the
run contains a Join of it that is followed by no Leave of it; and handling Leave a
second time leaves the same members as handling it once. -/
theorem members_are_joined_not_left (tr : List Action) (hf : Hub)
    (hjl : ∀ a ∈ tr, a.isBroadcast = false)
    (he : Run.exec Hub.start tr = some hf) :
    (∀ c, c ∈ hf.srv.clients ↔
      ∃ pre now post, tr = pre ++ Action.register c now :: post ∧
        ∀ now2, Action.unregister c now2 ∉ post) ∧
    (∀ (s : Server) (c x : Client) (now now2 : Time),
      x ∈ (Run.caseUnregister (Run.caseUnregister s c now).srv c now2).srv.clients ↔
        x ∈ (Run.caseUnregister s c now).srv.clients) := by
  constructor
  · intro c
    rw [Run.exec_mem_iff c tr Hub.start hf he hjl, joinedNotLeft_iff]
    simp [Hub.start, NewServer]
  · intro s c x now now2
    rw [Run.caseUnregister_mem, Run.caseUnregister_mem]
    tauto

/-- One step that is not a Join of `c` does not put `c` into the map. -/
theorem Run.step_not_mem {h h1 : Hub} {a : Action} (hs : Run.step h a = some h1)
    (c : Client) (ha : a.isRegisterOf c = false) (hc : c ∉ h.srv.clients) :
    c ∉ h1.srv.clients := by
  rcases Run.step_cases hs with ⟨_, hcase⟩ | ⟨msg, _, rfl, rfl⟩
  · rcases hcase with ⟨x, now, rfl, rfl⟩ | ⟨x, now, rfl, rfl⟩ | ⟨m, rfl, rfl⟩
    · simp only [Action.isRegisterOf, decide_eq_false_iff_not] at ha
      simp only [Run.caseRegister, Server.mem_insert, not_or]
      exact ⟨fun e => ha e.symm, hc⟩
    · rw [Run.caseUnregister_mem]
      exact fun h2 => hc h2.2
    · exact fun h2 => hc (Run.fanout_clients_subset _ _ _ _ h2)
  · exact hc

/-- A client that is not in the map is still absent after any run that contains no
Join of it: Leave events, published lines and completed notice sends never insert. -/
theorem Run.exec_not_mem (tr : List Action) :
    ∀ (h hf : Hub) (c : Client), c ∉ h.srv.clients →
      (∀ a ∈ tr, a.isRegisterOf c = false) →
      Run.exec h tr = some hf → c ∉ hf.srv.clients := by
  induction tr with
  | nil =>
    intro h hf c hc _ he
    simp [Run.exec] at he
    rw [← he]; exact hc
  | cons a rest ih =>
    intro h hf c hc hnr he
    rw [Run.exec] at he
    cases hs : Run.step h a with
    | none => simp [hs] at he
    | some h1 =>
      simp only [hs] at he
      exact ih h1 hf c (Run.step_not_mem hs c (hnr a (List.mem_cons_self _ _)) hc)
        (fun x hx => hnr x (List.mem_cons_of_mem _ hx)) he

/-- The clients registered during a run that is made of two parts. -/
theorem registered_append (tr1 tr2 : List Action) :
    registered (tr1 ++ tr2) = registered tr1 ++ registered tr2 := by
  induction tr1 with
  | nil => rfl
  | cons a rest ih =>
    cases a <;> simp [registered, ih]

/-- A client is not registered during a run exactly when no action of the run is a
Join of it. -/
theorem not_mem_registered_iff (c : Client) (tr : List Action) :
    c ∉ registered tr ↔ ∀ a ∈ tr, a.isRegisterOf c = false := by
  induction tr with
  | nil => simp [registered]
  | cons a rest ih =>
    cases a with
    | register x t =>
      simp only [registered, List.mem_cons, not_or, ih, forall_eq_or_imp,
        Action.isRegisterOf, decide_eq_false_iff_not]
      constructor
      · rintro ⟨h1, h2⟩
        exact ⟨fun e => h1 e.symm, h2⟩
      · rintro ⟨h1, h2⟩
        exact ⟨fun e => h1 e.symm, h2⟩
    | unregister x t => simp [registered, ih, Action.isRegisterOf]
    | broadcast m => simp [registered, ih, Action.isRegisterOf]
    | taken => simp [registered, ih, Action.isRegisterOf]

/-- C8: along any run of register, unregister and broadcast events from the empty
map in which every client is registered at most once (the only send on `s.register`
is the one `handleClient` makes with the client it has just allocated), a client
that was a member and is no longer one, whether a Leave or a full mailbox removed
it, is absent after every continuation of the run. -/
theorem removed_is_terminal (tr0 tr1 tr2 : List Action) (h0 h1 hf : Hub) (c : Client)
    (honce : (registered (tr0 ++ tr1 ++ tr2)).Nodup)
    (he0 : Run.exec Hub.start tr0 = some h0) (hin : c ∈ h0.srv.clients)
    (_he1 : Run.exec h0 tr1 = some h1) (hout : c ∉ h1.srv.clients)
    (he2 : Run.exec h1 tr2 = some hf) :
    c ∉ hf.srv.clients := by
  have hreg0 : c ∈ registered tr0 := by
    by_contra hno
    exact Run.exec_not_mem tr0 Hub.start h0 c (by simp [Hub.start, NewServer])
      ((not_mem_registered_iff c tr0).mp hno) he0 hin
  have hreg2 : c ∉ registered tr2 := by
    rw [registered_append, registered_append] at honce
    intro h2
    have hdis := (List.nodup_append.mp honce).2.2
    exact hdis (List.mem_append_left _ hreg0) h2
  exact Run.exec_not_mem tr2 h1 hf c hout ((not_mem_registered_iff c tr2).mp hreg2) he2

/-- The unregister case for a member whose channel is open. -/
theorem Run.caseUnregister_member_open (s : Server) (c : Client) (now : Time)
    (hc : c ∈ s.clients) (ho : (s.chans c).closed = false) :
    Run.caseUnregister s c now =
      { srv := (s.delete c).setChan c { buf := (s.chans c).buf, closed := true },
        pc := Pc.sending (leaveMessage now c.username) } := by
  simp [Run.caseUnregister, hc, Server.chans_delete, closeChan_open _ ho]

/-- One step preserves: no panic, members have open channels, and no client that is
a member or has a closed channel is registered later in the run. -/
theorem Run.step_inv {h h1 : Hub} {a : Action} {rest : List Action}
    (hs : Run.step h a = some h1)
    (hopen : ∀ c ∈ h.srv.clients, (h.srv.chans c).closed = false)
    (hreg : ∀ c, (c ∈ h.srv.clients ∨ (h.srv.chans c).closed = true) →
      c ∉ registered (a :: rest))
    (hnd : (registered (a :: rest)).Nodup) :
    h1.pc ≠ Pc.panicked ∧
    (∀ c ∈ h1.srv.clients, (h1.srv.chans c).closed = false) ∧
    (∀ c, (c ∈ h1.srv.clients ∨ (h1.srv.chans c).closed = true) → c ∉ registered rest) ∧
    (registered rest).Nodup := by
  rcases Run.step_cases hs with ⟨_, hcase⟩ | ⟨msg, _, rfl, rfl⟩
  · rcases hcase with ⟨x, now, rfl, rfl⟩ | ⟨x, now, rfl, rfl⟩ | ⟨m, rfl, rfl⟩
    · simp only [registered, List.nodup_cons] at hnd
      simp only [registered, List.mem_cons, not_or] at hreg
      have hxo : (h.srv.chans x).closed = false := by
        by_contra hcl
        exact (hreg x (Or.inr (by simpa using hcl))).1 rfl
      have hxm : x ∉ h.srv.clients := fun hm => (hreg x (Or.inl hm)).1 rfl
      refine ⟨by simp [Run.caseRegister], ?_, ?_, hnd.2⟩
      · intro c hc
        rcases (Server.mem_insert _ _ _).mp hc with rfl | hc1
        · exact hxo
        · exact hopen c hc1
      · intro c hc
        rcases hc with hc | hc
        · rcases (Server.mem_insert _ _ _).mp hc with rfl | hc1
          · exact hnd.1
          · exact (hreg c (Or.inl hc1)).2
        · exact (hreg c (Or.inr hc)).2
    · simp only [registered] at hnd hreg
      by_cases hx : x ∈ h.srv.clients
      · rw [Run.caseUnregister_member_open _ _ _ hx (hopen x hx)]
        refine ⟨by simp, ?_, ?_, hnd⟩
        · intro c hc
          rw [Server.clients_setChan] at hc
          obtain ⟨hcx, hcm⟩ := (Server.mem_delete _ _ _).mp hc
          simp [Server.chans_setChan, Server.chans_delete, hcx, hopen c hcm]
        · intro c hc
          by_cases hcx : c = x
          · subst hcx; exact hreg c (Or.inl hx)
          · rcases hc with hc | hc
            · rw [Server.clients_setChan] at hc
              exact hreg c (Or.inl ((Server.mem_delete _ _ _).mp hc).2)
            · simp only [Server.chans_setChan, Server.chans_delete, hcx, if_false] at hc
              exact hreg c (Or.inr hc)
      · have hnoop : Run.caseUnregister h.srv x now = { srv := h.srv, pc := Pc.select } := by
          simp [Run.caseUnregister, hx]
        rw [hnoop]
        exact ⟨by simp, hopen, hreg, hnd⟩
    · simp only [registered] at hnd hreg
      refine ⟨?_, ?_, ?_, hnd⟩
      · rw [(Run.caseBroadcast_open h.srv m hopen ⟨0, ""⟩).1]; simp
      · intro c hc
        obtain ⟨_, hch, hmem⟩ := Run.caseBroadcast_open h.srv m hopen c
        obtain ⟨hc1, hlen⟩ := hmem.mp hc
        rw [hch]; simp [hc1, hlen]
      · intro c hc
        obtain ⟨_, hch, hmem⟩ := Run.caseBroadcast_open h.srv m hopen c
        by_cases hcm : c ∈ h.srv.clients
        · exact hreg c (Or.inl hcm)
        · rcases hc with hc | hc
          · exact absurd (hmem.mp hc).1 hcm
          · rw [hch] at hc
            simp only [hcm, if_false] at hc
            exact hreg c (Or.inr hc)
  · simp only [registered] at hnd hreg
    exact ⟨by simp, hopen, hreg, hnd⟩

/-- The invariant of `Run.step_inv` along a whole run. -/
theorem Run.exec_inv (pre : List Action) :
    ∀ (h hf : Hub) (post : List Action), Run.exec h pre = some hf →
      h.pc ≠ Pc.panicked →
      (∀ c ∈ h.srv.clients, (h.srv.chans c).closed = false) →
      (∀ c, (c ∈ h.srv.clients ∨ (h.srv.chans c).closed = true) →
        c ∉ registered (pre ++ post)) →
      (registered (pre ++ post)).Nodup →
      hf.pc ≠ Pc.panicked ∧ ∀ c ∈ hf.srv.clients, (hf.srv.chans c).closed = false := by
  induction pre with
  | nil =>
    intro h hf post he hp hopen _ _
    simp [Run.exec] at he
    rw [← he]; exact ⟨hp, hopen⟩
  | cons a rest ih =>
    intro h hf post he _ hopen hreg hnd
    rw [Run.exec] at he
    cases hs : Run.step h a with
    | none => simp [hs] at he
    | some h1 =>
      simp only [hs] at he
      obtain ⟨hp1, hopen1, hreg1, hnd1⟩ :=
        @Run.step_inv h h1 a (rest ++ post) hs hopen hreg hnd
      exact ih h1 hf post he hp1 hopen1 hreg1 hnd1

/-! ## Mailbox lifetime -/

/-- C10: along any run from the empty map in which every client is registered at
most once (each with its fresh, open mailbox), every configuration reached has all
members' mailboxes open and the hub has not panicked: it has neither sent on a
closed mailbox nor closed a mailbox twice. -/
theorem members_have_open_mailboxes (pre post : List Action) (hf : Hub)
    (honce : (registered (pre ++ post)).Nodup)
    (he : Run.exec Hub.start pre = some hf) :
    hf.pc ≠ Pc.panicked ∧ ∀ c ∈ hf.srv.clients, (hf.srv.chans c).closed = false := by
  refine Run.exec_inv pre Hub.start hf post he (by simp [Hub.start]) ?_ ?_ honce
  · intro c hc
    simp [Hub.start, NewServer] at hc
  · intro c hc
    simp [Hub.start, NewServer, Chan.fresh] at hc

/-! ## Blocking -/

/-- A hub that stands at its send on `s.broadcast` takes part in no channel
operation offered by another goroutine of the program. -/
theorem Run.sending_stuck (h : Hub) (msg : String) (hpc : h.pc = Pc.sending msg)
    (a : Action) : Program.offers a = false ∨ Run.step h a = none := by
  cases a with
  | register c now => right; simp [Run.step, hpc]
  | unregister c now => right; simp [Run.step, hpc]
  | broadcast m => right; simp [Run.step, hpc]
  | taken => left; rfl

/-- C4 (the code at the failing input): the first Join received by a fresh hub
inserts the client and leaves the hub at the send `s.broadcast <- joinMessage`;
from there the hub takes part in no channel operation that another goroutine of the
program offers, so it stays inside the register case; and the register case ends at
that send in every hub state. -/
theorem hub_blocks_inside_register :
    Run.step Hub.start (Action.register alice nine) =
      some (Run.caseRegister NewServer alice nine) ∧
    (Run.caseRegister NewServer alice nine).pc =
      Pc.sending "[09:05:30] *** alice joined the chat ***" ∧
    (∀ a : Action, Program.offers a = false ∨
      Run.step (Run.caseRegister NewServer alice nine) a = none) ∧
    (∀ tr : List Action, tr = [] ∨ (∃ a ∈ tr, Program.offers a = false) ∨
      Run.exec (Run.caseRegister NewServer alice nine) tr = none) ∧
    (∀ (s : Server) (c : Client) (now : Time) (a : Action),
      Program.offers a = false ∨ Run.step (Run.caseRegister s c now) a = none) := by
  have hstep : ∀ a : Action, Program.offers a = false ∨
      Run.step (Run.caseRegister NewServer alice nine) a = none :=
    Run.sending_stuck _ _ rfl
  refine ⟨rfl, by decide, hstep, ?_, fun s c now => Run.sending_stuck _ _ rfl⟩
  intro tr
  cases tr with
  | nil => left; rfl
  | cons a rest =>
    right
    rcases hstep a with h1 | h1
    · left; exact ⟨a, List.mem_cons_self _ _, h1⟩
    · right; rw [Run.exec, h1]

/-! ## Join notice -/

/-- C6 (counterexample): with `alice` a member, handling the Join of `bob` leaves
the hub at the send of the notice with `bob` already in the map and the mailbox of
`alice` still empty; and the fan-out of that notice in the resulting state puts it
into the mailbox of `bob` itself. -/
theorem join_notice_counterexample :
    (Run.step { srv := NewServer.insert alice, pc := Pc.select }
        (Action.register bob nine)).map
      (fun h => (h.pc, (h.srv.chans alice).buf, decide (bob ∈ h.srv.clients))) =
      some (Pc.sending "[09:05:30] *** bob joined the chat ***", [], true) ∧
    ((Run.caseBroadcast (Run.caseRegister (NewServer.insert alice) bob nine).srv
        (joinMessage nine bob.username)).srv.chans bob).buf =
      ["[09:05:30] *** bob joined the chat ***"] := by
  constructor
  · decide
  · decide

/-- C6 (as amended): the register case inserts the new client, keeps the earlier
members, touches no mailbox and ends at the send of the notice
`[HH:MM:SS] *** <username> joined the chat ***` on `s.broadcast`; the fan-out of that
notice in the resulting state appends it to the mailbox of every member, the new
client included. -/
theorem join_inserts_before_notice (s : Server) (b : Client) (now : Time) :
    (Run.caseRegister s b now).pc =
      Pc.sending ("[" ++ now.Format ++ "] *** " ++ b.username ++ " joined the chat ***") ∧
    b ∈ (Run.caseRegister s b now).srv.clients ∧
    (∀ c ∈ s.clients, c ∈ (Run.caseRegister s b now).srv.clients) ∧
    (Run.caseRegister s b now).srv.chans = s.chans ∧
    ((∀ c ∈ (s.insert b).clients,
        (s.chans c).closed = false ∧ (s.chans c).buf.length < sendCap) →
      ∀ c ∈ (Run.caseRegister s b now).srv.clients,
        (Run.caseBroadcast (Run.caseRegister s b now).srv
            (joinMessage now b.username)).srv.chans c =
          { buf := (s.chans c).buf ++ [joinMessage now b.username], closed := false }) := by
  refine ⟨rfl, ?_, ?_, rfl, ?_⟩
  · simp [Run.caseRegister, Server.mem_insert]
  · intro c hc
    simp [Run.caseRegister, Server.mem_insert, hc]
  · intro hroom c hc
    have hopen : ∀ x ∈ (Run.caseRegister s b now).srv.clients,
        ((Run.caseRegister s b now).srv.chans x).closed = false :=
      fun x hx => (hroom x hx).1
    rw [(Run.caseBroadcast_open _ _ hopen c).2.1]
    have hlen : ((Run.caseRegister s b now).srv.chans c).buf.length < sendCap :=
      (hroom c hc).2
    simp only [hc, hlen, if_true]
    rfl

/-! ## The pumps -/

/-- The loop of `readMessages` on a stream made of two parts, when the first part
does not make it leave the loop. -/
theorem readMessages.loop_append (client : Client) (pre rest : List (ReadResult × Time))
    (hpre : (readMessages.loop client pre).2 = false) :
    readMessages.loop client (pre ++ rest) =
      ((readMessages.loop client pre).1 ++ (readMessages.loop client rest).1,
        (readMessages.loop client rest).2) := by
  induction pre with
  | nil => simp [readMessages.loop]
  | cons e pre1 ih =>
    obtain ⟨r, now⟩ := e
    rw [List.cons_append, readMessages.loop, readMessages.loop]
    rw [readMessages.loop] at hpre
    cases hb : readMessages.body client r now with
    | stop => simp [hb] at hpre
    | next sent =>
      cases sent with
      | none =>
        simp only [hb] at hpre ⊢
        exact ih hpre
      | some m =>
        simp only [hb] at hpre ⊢
        rw [ih hpre]
        simp

/-- The function `readMessages` on a stream made of two parts, when the first part
does not make it leave the loop. -/
theorem readMessages_append (client : Client) (pre rest : List (ReadResult × Time))
    (hpre : (readMessages.loop client pre).2 = false) :
    readMessages client (pre ++ rest) =
      ((readMessages.loop client pre).1 ++ (readMessages client rest).1,
        (readMessages client rest).2) := by
  unfold readMessages
  rw [readMessages.loop_append client pre rest hpre]
  by_cases hd : (readMessages.loop client rest).2 = true
  · simp [hd]
  · simp [hd]

/-- C7: for a line read by `readMessages` at any point of its stream (after reads
`pre` that have not ended the loop), with `t` the trimmed line: if `t` is empty the
function behaves as if the line had not been read: nothing is sent for it and the
pump goes on with the next read; if `t` is `/exit` the function returns, having sent
for this line exactly the deferred unregister (then closed the connection) and no
publish, whatever follows in the stream; otherwise it sends for this line exactly one
publish `[HH:MM:SS] username: t` and goes on with the next read. The same is stated
for the loop body and the loop; the timestamp has eight characters. -/
theorem readMessages_line (client : Client) (raw : String) (now : Time)
    (rest : List (ReadResult × Time)) :
    (TrimSpace raw = "" →
      readMessages.body client (ReadResult.line raw) now = Flow.next none ∧
      readMessages.loop client ((ReadResult.line raw, now) :: rest) =
        readMessages.loop client rest ∧
      ∀ pre : List (ReadResult × Time), (readMessages.loop client pre).2 = false →
        readMessages client (pre ++ (ReadResult.line raw, now) :: rest) =
          ((readMessages.loop client pre).1 ++ (readMessages client rest).1,
            (readMessages client rest).2)) ∧
    (TrimSpace raw = "/exit" →
      readMessages.body client (ReadResult.line raw) now = Flow.stop ∧
      readMessages client ((ReadResult.line raw, now) :: rest) =
        ([PumpOp.unregister client, PumpOp.connClose client], true) ∧
      ∀ pre : List (ReadResult × Time), (readMessages.loop client pre).2 = false →
        readMessages client (pre ++ (ReadResult.line raw, now) :: rest) =
          ((readMessages.loop client pre).1 ++
            [PumpOp.unregister client, PumpOp.connClose client], true)) ∧
    (TrimSpace raw ≠ "" → TrimSpace raw ≠ "/exit" →
      readMessages.body client (ReadResult.line raw) now =
        Flow.next (some ("[" ++ now.Format ++ "] " ++ client.username ++ ": " ++ TrimSpace raw)) ∧
      readMessages.loop client ((ReadResult.line raw, now) :: rest) =
        (PumpOp.publish ("[" ++ now.Format ++ "] " ++ client.username ++ ": " ++ TrimSpace raw)
            :: (readMessages.loop client rest).1,
          (readMessages.loop client rest).2) ∧
      ∀ pre : List (ReadResult × Time), (readMessages.loop client pre).2 = false →
        readMessages client (pre ++ (ReadResult.line raw, now) :: rest) =
          ((readMessages.loop client pre).1 ++
            PumpOp.publish
                ("[" ++ now.Format ++ "] " ++ client.username ++ ": " ++ TrimSpace raw)
              :: (readMessages client rest).1,
            (readMessages client rest).2)) ∧
    now.Format.length = 8 := by
  refine ⟨?_, ?_, ?_, ?_⟩
  · intro h
    have hb : readMessages.body client (ReadResult.line raw) now = Flow.next none := by
      simp [readMessages.body, h]
    have hl : readMessages.loop client ((ReadResult.line raw, now) :: rest) =
        readMessages.loop client rest := by rw [readMessages.loop, hb]
    refine ⟨hb, hl, fun pre hpre => ?_⟩
    have hf : readMessages client ((ReadResult.line raw, now) :: rest) =
        readMessages client rest := by
      unfold readMessages
      rw [hl]
    rw [readMessages_append client pre _ hpre, hf]
  · intro h
    have hb : readMessages.body client (ReadResult.line raw) now = Flow.stop := by
      simp [readMessages.body, h]
    have hl : readMessages.loop client ((ReadResult.line raw, now) :: rest) = ([], true) := by
      rw [readMessages.loop, hb]
    have hf : readMessages client ((ReadResult.line raw, now) :: rest) =
        ([PumpOp.unregister client, PumpOp.connClose client], true) := by
      simp [readMessages, hl]
    refine ⟨hb, hf, fun pre hpre => ?_⟩
    rw [readMessages_append client pre _ hpre, hf]
  · intro h1 h2
    have hb : readMessages.body client (ReadResult.line raw) now =
        Flow.next (some ("[" ++ now.Format ++ "] " ++ client.username ++ ": " ++ TrimSpace raw)) := by
      simp [readMessages.body, h1, h2, chatMessage]
    have hl : readMessages.loop client ((ReadResult.line raw, now) :: rest) =
        (PumpOp.publish ("[" ++ now.Format ++ "] " ++ client.username ++ ": " ++ TrimSpace raw)
            :: (readMessages.loop client rest).1,
          (readMessages.loop client rest).2) := by rw [readMessages.loop, hb]
    refine ⟨hb, hl, fun pre hpre => ?_⟩
    have hf : readMessages client ((ReadResult.line raw, now) :: rest) =
        (PumpOp.publish ("[" ++ now.Format ++ "] " ++ client.username ++ ": " ++ TrimSpace raw)
            :: (readMessages client rest).1,
          (readMessages client rest).2) := by
      unfold readMessages
      rw [hl]
      by_cases hd : (readMessages.loop client rest).2 = true
      · simp [hd]
      · simp [hd]
    rw [readMessages_append client pre _ hpre, hf]
  · simp [Time.Format, twoDigits, String.length_append, String.length]

/-- C9 (counterexample): when the write of the only mailbox entry fails,
`writeMessages` performs the write and the deferred close of the connection, and
returns; it sends nothing on `s.unregister`. -/
theorem writeMessages_counterexample :
    writeMessages alice [("hello", false)] false =
      ([PumpOp.write "hello\n", PumpOp.connClose alice], true) ∧
    PumpOp.unregister alice ∉ (writeMessages alice [("hello", false)] false).1 := by
  constructor
  · decide
  · decide

/-- The loop of `writeMessages` performs writes only. -/
theorem writeMessages.loop_writes (entries : List (String × Bool)) (closed : Bool) :
    ∀ op ∈ (writeMessages.loop entries closed).1, ∃ d, op = PumpOp.write d := by
  induction entries with
  | nil => intro op hop; simp [writeMessages.loop] at hop
  | cons e rest ih =>
    obtain ⟨m, ok⟩ := e
    intro op hop
    cases ok with
    | true =>
      simp only [writeMessages.loop, if_true, List.mem_cons] at hop
      rcases hop with rfl | hop
      · exact ⟨_, rfl⟩
      · exact ih op hop
    | false =>
      simp [writeMessages.loop] at hop
      exact ⟨_, hop⟩

/-- The loop of `writeMessages` on entries whose first failing write is that of `m`. -/
theorem writeMessages.loop_fail (pre : List (String × Bool)) (m : String)
    (rest : List (String × Bool)) (closed : Bool) (hok : ∀ e ∈ pre, e.2 = true) :
    writeMessages.loop (pre ++ (m, false) :: rest) closed =
      (pre.map (fun e => PumpOp.write (e.1 ++ "\n")) ++ [PumpOp.write (m ++ "\n")], true) := by
  induction pre with
  | nil => simp [writeMessages.loop]
  | cons e pre1 ih =>
    obtain ⟨x, ok⟩ := e
    have hx : ok = true := hok (x, ok) (List.mem_cons_self _ _)
    subst hx
    have ih1 := ih (fun e he => hok e (List.mem_cons_of_mem _ he))
    simp [writeMessages.loop, ih1]

/-- C9 (as amended): `writeMessages` never sends on `s.unregister`; when a write
fails it stops after that write, closes the connection and returns. The unregister
of a session is sent by `readMessages` alone, when its own loop ends, for instance
on a read error. -/
theorem write_failure_only_closes_connection (client : Client) :
    (∀ (entries : List (String × Bool)) (closed : Bool) (c : Client),
      PumpOp.unregister c ∉ (writeMessages client entries closed).1) ∧
    (∀ (pre : List (String × Bool)) (m : String) (rest : List (String × Bool))
        (closed : Bool), (∀ e ∈ pre, e.2 = true) →
      writeMessages client (pre ++ (m, false) :: rest) closed =
        (pre.map (fun e => PumpOp.write (e.1 ++ "\n")) ++
          [PumpOp.write (m ++ "\n"), PumpOp.connClose client], true)) ∧
    (∀ (now : Time) (rest : List (ReadResult × Time)),
      readMessages client ((ReadResult.err, now) :: rest) =
        ([PumpOp.unregister client, PumpOp.connClose client], true)) := by
  refine ⟨?_, ?_, ?_⟩
  · intro entries closed c hin
    unfold writeMessages at hin
    split at hin
    · simp only [List.mem_append, List.mem_singleton] at hin
      rcases hin with hin | hin
      · obtain ⟨d, hd⟩ := writeMessages.loop_writes entries closed _ hin
        cases hd
      · cases hin
    · obtain ⟨d, hd⟩ := writeMessages.loop_writes entries closed _ hin
      cases hd
  · intro pre m rest closed hok
    simp [writeMessages, writeMessages.loop_fail pre m rest closed hok]
  · intro now rest
    simp [readMessages, readMessages.loop, readMessages.body]

/-! ## Instances on the sample data -/

set_option maxRecDepth 16384

/-- C1 at `sampleRun`: `bob` is a member at the end exactly because the run holds a
Join of `bob` with no later Leave of `bob`. -/
theorem members_are_joined_not_left_witness :
    (∀ a ∈ sampleRun, a.isBroadcast = false) ∧
    Run.exec Hub.start sampleRun = some sampleEnd ∧
    (bob ∈ sampleEnd.srv.clients ↔
      ∃ pre now post, sampleRun = pre ++ Action.register bob now :: post ∧
        ∀ now2, Action.unregister bob now2 ∉ post) :=
  ⟨by decide, rfl, (members_are_joined_not_left sampleRun sampleEnd (by decide) rfl).1 bob⟩

/-- C2 at `pair`: one published line reaches the mailbox of `bob`, and two published
lines reach both mailboxes in the same order. -/
theorem broadcast_appends_to_every_member_witness :
    (∀ c ∈ pair.clients, (pair.chans c).closed = false ∧ (pair.chans c).buf.length < sendCap) ∧
    (Run.caseBroadcast pair "hi").srv.chans bob =
      { buf := (pair.chans bob).buf ++ ["hi"], closed := false } ∧
    Run.exec { srv := pair, pc := Pc.select } [Action.broadcast "hi", Action.broadcast "yo"] =
      some (Run.caseBroadcast (Run.caseBroadcast pair "hi").srv "yo") ∧
    ((Run.caseBroadcast (Run.caseBroadcast pair "hi").srv "yo").srv.chans alice).buf =
      (pair.chans alice).buf ++ published [Action.broadcast "hi", Action.broadcast "yo"] ∧
    ((Run.caseBroadcast (Run.caseBroadcast pair "hi").srv "yo").srv.chans bob).buf =
      (pair.chans bob).buf ++ published [Action.broadcast "hi", Action.broadcast "yo"] :=
  ⟨by decide,
    (broadcast_appends_to_every_member.1 pair "hi" (by decide)).2.2.1 bob (by decide),
    rfl,
    broadcast_appends_to_every_member.2 { srv := pair, pc := Pc.select }
      (Run.caseBroadcast (Run.caseBroadcast pair "hi").srv "yo")
      [Action.broadcast "hi", Action.broadcast "yo"] alice bob rfl (by decide) (by decide)
      (by decide)⟩

/-- C3 at `crowded`: `alice`, whose mailbox holds 256 lines, is dropped and `bob`
gets the line. -/
theorem broadcast_drops_full_member_witness :
    (∀ c ∈ crowded.clients, (crowded.chans c).closed = false) ∧
    alice ∈ crowded.clients ∧ sendCap ≤ (crowded.chans alice).buf.length ∧
    alice ∉ (Run.caseBroadcast crowded "hi").srv.clients ∧
    bob ∈ (Run.caseBroadcast crowded "hi").srv.clients ∧
    (Run.caseBroadcast crowded "hi").srv.chans bob =
      { buf := (crowded.chans bob).buf ++ ["hi"], closed := false } :=
  ⟨by decide, by decide, by decide,
    ((broadcast_drops_full_member crowded "hi" (by decide)).2.1 alice (by decide) (by decide)).1,
    (broadcast_drops_full_member crowded "hi" (by decide)).2.2 bob (by decide) (by decide)⟩

/-- C5 at the empty map: a Leave of `alice` changes nothing. -/
theorem unregister_absent_changes_nothing_witness :
    alice ∉ NewServer.clients ∧
    Run.caseUnregister NewServer alice nine = { srv := NewServer, pc := Pc.select } :=
  ⟨by decide, (unregister_absent_changes_nothing NewServer alice nine).1 (by decide)⟩

/-- C6 (as amended) with `alice` a member and `bob` joining: the fan-out of the
notice reaches the mailbox of `bob`. -/
theorem join_inserts_before_notice_witness :
    (∀ c ∈ ((NewServer.insert alice).insert bob).clients,
      ((NewServer.insert alice).chans c).closed = false ∧
        ((NewServer.insert alice).chans c).buf.length < sendCap) ∧
    (Run.caseBroadcast (Run.caseRegister (NewServer.insert alice) bob nine).srv
        (joinMessage nine bob.username)).srv.chans bob =
      { buf := ((NewServer.insert alice).chans bob).buf ++ [joinMessage nine bob.username],
        closed := false } :=
  ⟨by decide,
    (join_inserts_before_notice (NewServer.insert alice) bob nine).2.2.2.2 (by decide) bob
      (by decide)⟩

/-- C7 on a stream: a chat line, a blank line, a second chat line and the exit
command, each read after the ones before it. -/
theorem readMessages_line_witness :
    TrimSpace "  \r\n" = "" ∧
    readMessages.body alice (ReadResult.line "  \r\n") nine = Flow.next none ∧
    readMessages alice ([(ReadResult.line "hi\n", nine)] ++
        (ReadResult.line "  \r\n", nine) :: [(ReadResult.line "yo\n", nine)]) =
      ((readMessages.loop alice [(ReadResult.line "hi\n", nine)]).1 ++
          (readMessages alice [(ReadResult.line "yo\n", nine)]).1,
        (readMessages alice [(ReadResult.line "yo\n", nine)]).2) ∧
    TrimSpace " /exit\n" = "/exit" ∧
    readMessages alice ([(ReadResult.line "hi\n", nine)] ++
        (ReadResult.line " /exit\n", nine) :: [(ReadResult.line "late\n", nine)]) =
      ((readMessages.loop alice [(ReadResult.line "hi\n", nine)]).1 ++
        [PumpOp.unregister alice, PumpOp.connClose alice], true) ∧
    TrimSpace " hello \n" ≠ "" ∧ TrimSpace " hello \n" ≠ "/exit" ∧
    readMessages alice ([(ReadResult.line "hi\n", nine)] ++
        (ReadResult.line " hello \n", nine) :: [(ReadResult.err, nine)]) =
      ((readMessages.loop alice [(ReadResult.line "hi\n", nine)]).1 ++
          PumpOp.publish ("[" ++ nine.Format ++ "] " ++ alice.username ++ ": " ++
            TrimSpace " hello \n")
            :: (readMessages alice [(ReadResult.err, nine)]).1,
        (readMessages alice [(ReadResult.err, nine)]).2) :=
  ⟨by decide, ((readMessages_line alice "  \r\n" nine []).1 (by decide)).1,
    ((readMessages_line alice "  \r\n" nine [(ReadResult.line "yo\n", nine)]).1
      (by decide)).2.2 [(ReadResult.line "hi\n", nine)] (by decide),
    by decide,
    ((readMessages_line alice " /exit\n" nine [(ReadResult.line "late\n", nine)]).2.1
      (by decide)).2.2 [(ReadResult.line "hi\n", nine)] (by decide),
    by decide, by decide,
    ((readMessages_line alice " hello \n" nine [(ReadResult.err, nine)]).2.2.1 (by decide)
      (by decide)).2.2 [(ReadResult.line "hi\n", nine)] (by decide)⟩

/-- C8 on a run in which `alice` joins, leaves, and `bob` then joins and a line is
published. -/
theorem removed_is_terminal_witness :
    (registered ([Action.register alice nine, Action.taken] ++
      [Action.unregister alice nine] ++
      [Action.taken, Action.register bob nine, Action.taken, Action.broadcast "x"])).Nodup ∧
    Run.exec Hub.start [Action.register alice nine, Action.taken] =
      some { srv := NewServer.insert alice, pc := Pc.select } ∧
    alice ∈ (NewServer.insert alice).clients ∧
    Run.exec { srv := NewServer.insert alice, pc := Pc.select }
        [Action.unregister alice nine] =
      some (Run.caseUnregister (NewServer.insert alice) alice nine) ∧
    alice ∉ (Run.caseUnregister (NewServer.insert alice) alice nine).srv.clients ∧
    Run.exec (Run.caseUnregister (NewServer.insert alice) alice nine)
        [Action.taken, Action.register bob nine, Action.taken, Action.broadcast "x"] =
      some (Run.caseBroadcast
        (Run.caseRegister (Run.caseUnregister (NewServer.insert alice) alice nine).srv
          bob nine).srv "x") ∧
    alice ∉ (Run.caseBroadcast
        (Run.caseRegister (Run.caseUnregister (NewServer.insert alice) alice nine).srv
          bob nine).srv "x").srv.clients :=
  ⟨by decide, rfl, by decide, rfl, by decide, rfl,
    removed_is_terminal [Action.register alice nine, Action.taken]
      [Action.unregister alice nine]
      [Action.taken, Action.register bob nine, Action.taken, Action.broadcast "x"]
      { srv := NewServer.insert alice, pc := Pc.select }
      (Run.caseUnregister (NewServer.insert alice) alice nine)
      (Run.caseBroadcast
        (Run.caseRegister (Run.caseUnregister (NewServer.insert alice) alice nine).srv
          bob nine).srv "x")
      alice (by decide) rfl (by decide) rfl (by decide) rfl⟩

/-- C9 (as amended) on a mailbox whose second entry fails to be written. -/
theorem write_failure_only_closes_connection_witness :
    (∀ e ∈ [("a", true)], e.2 = true) ∧
    writeMessages alice ([("a", true)] ++ ("b", false) :: [("c", true)]) false =
      ([("a", true)].map (fun e => PumpOp.write (e.1 ++ "\n")) ++
        [PumpOp.write ("b" ++ "\n"), PumpOp.connClose alice], true) :=
  ⟨by decide,
    (write_failure_only_closes_connection alice).2.1 [("a", true)] "b" [("c", true)] false
      (by decide)⟩

/-- C10 at `sampleRun`, followed by one more published line. -/
theorem members_have_open_mailboxes_witness :
    (registered (sampleRun ++ [Action.broadcast "x"])).Nodup ∧
    Run.exec Hub.start sampleRun = some sampleEnd ∧
    sampleEnd.pc ≠ Pc.panicked ∧
    ∀ c ∈ sampleEnd.srv.clients, (sampleEnd.srv.chans c).closed = false :=
  ⟨by decide, rfl,
    members_have_open_mailboxes sampleRun [Action.broadcast "x"] sampleEnd (by decide) rfl⟩

end ChatServer
